import Mathlib

/-!
Verification of the Agentic Insight Reader application, a React/TypeScript
document-analysis UI.  The definitions below are a shallow embedding of the
data model in src/types.ts, the AI gateway in src/services/geminiService.ts,
the App component state logic in src/App.tsx and the canvas editor in
src/components/ImageGenerator.tsx.  External effects (the hosted model API,
the DOM, PDF.js, FileReader, Date.now, Math.random) are modelled by explicit
parameters carrying their results.  JavaScript truthiness on strings and
nullable values is modelled explicitly wherever the source relies on it.
-/

namespace PdfRead

/-- Role of a chat message (types.ts, ChatMessage.role : 'user' | 'model'). -/
inductive Role where
  | user
  | model
deriving DecidableEq, Repr

/-- ChatMessage from types.ts.  The optional isError flag is an Option; the
timestamp is the Date.now() value recorded when the message was built. -/
structure ChatMessage where
  role : Role
  text : String
  isError : Option Bool
  timestamp : Nat
deriving DecidableEq, Repr

/-- DocumentPage from types.ts.  The four data fields of a page; the opaque
DOM File handle of the source is not part of the model. -/
structure DocumentPage where
  id : String
  url : String
  base64 : String
  mimeType : String
deriving DecidableEq, Repr

/-- AppState enum from types.ts. -/
inductive AppState where
  | IDLE
  | ANALYZING
  | READY
  | IMAGE_GEN
deriving DecidableEq, Repr

/-- AgentDiagramData from types.ts: the five boxes of the static agent
architecture infographic. -/
structure AgentDiagramData where
  model_core : String
  nervous_system : String
  human_collaboration : String
  tools_rag : String
  deployment : String
deriving DecidableEq, Repr

/-- DiagramNode from types.ts: a positioned card on the canvas. -/
structure DiagramNode where
  id : String
  title : String
  content : String
  x : Int
  y : Int
deriving DecidableEq, Repr

/-- DiagramConnection from types.ts: a link from a node to a free point. -/
structure DiagramConnection where
  id : String
  fromNodeId : String
  toX : Int
  toY : Int
deriving DecidableEq, Repr

/-- GeneratedAsset from types.ts: the hybrid asset of the creative studio. -/
structure GeneratedAsset where
  svg : Option String
  background : Option String
  nodes : Option (List DiagramNode)
  connections : Option (List DiagramConnection)
deriving DecidableEq, Repr

/-! ## geminiService.refineNodes (src/services/geminiService.ts) -/

/-- One node of the JSON list returned by the model inside refineNodes.  The
response schema does not force an id, so it is optional. -/
structure JsonNode where
  id : Option String
  title : String
  content : String
deriving DecidableEq, Repr

/-- JavaScript n.id || fallback: the fallback is used when the id is absent
or the empty string (both falsy). -/
def jsIdOr : Option String → String → String
  | some s, d => if s = "" then d else s
  | none, d => d

/-- Merge step of refineNodes for one JSON node (with its index): look up the
first current node with the same id (JavaScript cn.id === n.id, which never
matches an absent id) and keep its position, else use the default 50/50.  The
fresh function models the node-Date.now()-Math.random() id generator. -/
def mergeNode (currentNodes : List DiagramNode) (fresh : Nat → String)
    (p : Nat × JsonNode) : DiagramNode :=
  match currentNodes.find? (fun cn => some cn.id == p.2.id) with
  | some e =>
      { id := jsIdOr p.2.id (fresh p.1), title := p.2.title,
        content := p.2.content, x := e.x, y := e.y }
  | none =>
      { id := jsIdOr p.2.id (fresh p.1), title := p.2.title,
        content := p.2.content, x := 50, y := 50 }

/-- refineNodes from geminiService.ts, after the model call: the JSON node
list returned by the model is mapped through the position-preserving merge.
The network interaction is abstracted into the jsonNodes argument. -/
def refineNodes (currentNodes : List DiagramNode) (jsonNodes : List JsonNode)
    (fresh : Nat → String) : List DiagramNode :=
  jsonNodes.enum.map (mergeNode currentNodes fresh)

/-! ## geminiService.analyzeForDiagram (src/services/geminiService.ts) -/

/-- Fallback value returned by analyzeForDiagram from its catch block. -/
def fallbackDiagram : AgentDiagramData :=
  { model_core := "Could not extract Model info"
    nervous_system := "Could not extract System info"
    human_collaboration := "Could not extract Human info"
    tools_rag := "Could not extract Tools info"
    deployment := "Could not extract Deployment info" }

/-- analyzeForDiagram from geminiService.ts, for an initialized client.  The
responseText argument carries the outcome of the model request: none when the
request rejected or the response text was absent, some t for a returned text
(an empty text is falsy and makes the code throw into its own catch).  The
parseJson argument models JSON.parse followed by the unchecked cast to
AgentDiagramData: none when JSON.parse throws.  Every failure is caught and
turned into fallbackDiagram, so the embedding is a total function. -/
def analyzeForDiagram (responseText : Option String)
    (parseJson : String → Option AgentDiagramData) : AgentDiagramData :=
  match responseText with
  | none => fallbackDiagram
  | some t =>
      if t = "" then fallbackDiagram
      else
        match parseJson t with
        | some d => d
        | none => fallbackDiagram

/-! ## Theorems for claims C1 and C9 -/

/-- Helper for C1: the merge of a single JSON node preserves the position of
a pre-existing identifier and gives the default position 50/50 otherwise,
provided current ids are nonempty (as all app-generated ids are) and fresh
ids are really fresh. -/
theorem mergeNode_spec (currentNodes : List DiagramNode) (fresh : Nat → String)
    (hne : ∀ n ∈ currentNodes, n.id ≠ "")
    (hfresh : ∀ i, fresh i ∉ currentNodes.map DiagramNode.id)
    (p : Nat × JsonNode) :
    ((mergeNode currentNodes fresh p).id ∈ currentNodes.map DiagramNode.id →
      ∃ cn ∈ currentNodes, cn.id = (mergeNode currentNodes fresh p).id ∧
        (mergeNode currentNodes fresh p).x = cn.x ∧
        (mergeNode currentNodes fresh p).y = cn.y) ∧
    ((mergeNode currentNodes fresh p).id ∉ currentNodes.map DiagramNode.id →
      (mergeNode currentNodes fresh p).x = 50 ∧
      (mergeNode currentNodes fresh p).y = 50) := by
  rcases hfind : currentNodes.find? (fun cn => some cn.id == p.2.id) with _ | e
  · -- no current node has the JSON node's id
    have hnone := List.find?_eq_none.1 hfind
    constructor
    · intro hin
      exfalso
      simp only [mergeNode, hfind] at hin
      rcases hid : p.2.id with _ | s
      · rw [hid] at hin
        exact hfresh p.1 hin
      · by_cases hs : s = ""
        · rw [hid] at hin
          simp only [jsIdOr, hs, if_pos rfl] at hin
          exact hfresh p.1 hin
        · rw [hid] at hin
          simp only [jsIdOr, if_neg hs] at hin
          obtain ⟨cn, hcn, hcnid⟩ := List.mem_map.1 hin
          have := hnone cn hcn
          rw [hid] at this
          simp [beq_iff_eq, hcnid] at this
    · intro _
      simp [mergeNode, hfind]
  · -- a current node e matches
    have he : e ∈ currentNodes := List.mem_of_find?_eq_some hfind
    have hpe : (fun cn => some cn.id == p.2.id) e = true :=
      @List.find?_some _ (fun cn => some cn.id == p.2.id) e currentNodes hfind
    simp only [] at hpe
    have hpid : p.2.id = some e.id := (beq_iff_eq.1 hpe).symm
    have hid : (mergeNode currentNodes fresh p).id = e.id := by
      simp only [mergeNode, hfind]
      simp [jsIdOr, hpid, hne e he]
    constructor
    · intro _
      refine ⟨e, he, hid.symm, ?_, ?_⟩ <;> simp only [mergeNode, hfind]
    · intro hnot
      exact absurd (hid ▸ List.mem_map_of_mem DiagramNode.id he) hnot

/-- C1: every node returned by refineNodes whose identifier already occurs in
currentNodes keeps that node's x and y, and every node whose identifier is
not in currentNodes gets the default position x = 50, y = 50.  The
hypotheses record that the identifiers the application stores are never the
empty string and that freshly generated ids do not collide with current
ones. -/
theorem refineNodes_preserves_positions
    (currentNodes : List DiagramNode) (jsonNodes : List JsonNode)
    (fresh : Nat → String)
    (hne : ∀ n ∈ currentNodes, n.id ≠ "")
    (hfresh : ∀ i, fresh i ∉ currentNodes.map DiagramNode.id) :
    ∀ m ∈ refineNodes currentNodes jsonNodes fresh,
      (m.id ∈ currentNodes.map DiagramNode.id →
        ∃ cn ∈ currentNodes, cn.id = m.id ∧ m.x = cn.x ∧ m.y = cn.y) ∧
      (m.id ∉ currentNodes.map DiagramNode.id → m.x = 50 ∧ m.y = 50) := by
  intro m hm
  obtain ⟨p, _, rfl⟩ := List.mem_map.1 hm
  exact mergeNode_spec currentNodes fresh hne hfresh p

/-- Current nodes used to witness C1. -/
def curEx : List DiagramNode :=
  [{ id := "a", title := "t", content := "c", x := 7, y := 9 }]

/-- JSON response used to witness C1. -/
def jsonEx : List JsonNode :=
  [{ id := some "a", title := "t2", content := "c2" }]

/-- Merged node used to witness C1. -/
def mwEx : DiagramNode := { id := "a", title := "t2", content := "c2", x := 7, y := 9 }

/-- Witness for C1: concrete refinement of one node keeping position 7/9. -/
theorem refineNodes_preserves_positions_witness :
    (mwEx.id ∈ curEx.map DiagramNode.id →
      ∃ cn ∈ curEx, cn.id = mwEx.id ∧ mwEx.x = cn.x ∧ mwEx.y = cn.y) ∧
    (mwEx.id ∉ curEx.map DiagramNode.id → mwEx.x = 50 ∧ mwEx.y = 50) :=
  refineNodes_preserves_positions curEx jsonEx (fun _ => "b")
    (by decide)
    (by
      intro i
      show ("b" : String) ∉ curEx.map DiagramNode.id
      decide)
    mwEx (by decide)

/-- C9: analyzeForDiagram is total over request failures: a rejected request
or missing text, an empty text, and unparseable JSON all yield the fallback
AgentDiagramData whose five fields are the fixed placeholder strings, while
a parsed response is returned as is; no exception propagates (the embedding
is a total function into AgentDiagramData, not an error monad). -/
theorem analyzeForDiagram_total (parseJson : String → Option AgentDiagramData) :
    analyzeForDiagram none parseJson = fallbackDiagram ∧
    analyzeForDiagram (some "") parseJson = fallbackDiagram ∧
    (∀ t, parseJson t = none → analyzeForDiagram (some t) parseJson = fallbackDiagram) ∧
    (∀ t d, t ≠ "" → parseJson t = some d → analyzeForDiagram (some t) parseJson = d) ∧
    fallbackDiagram.model_core = "Could not extract Model info" ∧
    fallbackDiagram.nervous_system = "Could not extract System info" ∧
    fallbackDiagram.human_collaboration = "Could not extract Human info" ∧
    fallbackDiagram.tools_rag = "Could not extract Tools info" ∧
    fallbackDiagram.deployment = "Could not extract Deployment info" := by
  refine ⟨rfl, rfl, ?_, ?_, rfl, rfl, rfl, rfl, rfl⟩
  · intro t hp
    by_cases h : t = "" <;> simp [analyzeForDiagram, h, hp]
  · intro t d ht hp
    simp [analyzeForDiagram, ht, hp]

/-- Witness for C9: a concrete malformed-JSON run returns the fallback. -/
theorem analyzeForDiagram_total_witness :
    analyzeForDiagram (some "x") (fun _ => none) = fallbackDiagram :=
  (analyzeForDiagram_total (fun _ => none)).2.2.1 "x" rfl

/-! ## Upload and conversion pipeline (src/App.tsx: processPdf, processFiles)

The data URLs handed back by canvas.toDataURL and FileReader.readAsDataURL
are character strings; the code derives the transfer payload with
url.split(',')[1].  JavaScript String.split on a one-character separator is
embedded below on the character list of the string. -/

/-- Split of a character list at every comma, exactly as JavaScript
String.split(',') chunks a string (an empty string yields one empty chunk,
a trailing comma yields a trailing empty chunk). -/
def splitCommaL : List Char → List (List Char)
  | [] => [[]]
  | c :: cs =>
      if c = ',' then [] :: splitCommaL cs
      else
        match splitCommaL cs with
        | [] => [[c]]
        | t :: ts => (c :: t) :: ts

/-- JavaScript url.split(',') on strings. -/
def jsSplitComma (s : String) : List String :=
  (splitCommaL s.data).map String.mk

/-- Everything after the first comma of a character list; the spec's words
for the transfer payload, used to compare the code's split-based extraction
against the specified one. -/
def afterCommaL : List Char → List Char
  | [] => []
  | c :: cs => if c = ',' then cs else afterCommaL cs

/-- Portion of a string after its first comma (the spec's description of the
transfer payload, stated on strings). -/
def afterFirstComma (s : String) : String :=
  String.mk (afterCommaL s.data)

/-- Page construction shared by the image branch of processFiles and by the
per-page body of processPdf: keep the full data URL for display and store
url.split(',')[1] as the transfer payload (the getD default stands for the
JavaScript undefined, never reached on a data URL, which always contains a
comma). -/
def mkPageFromDataUrl (id url mimeType : String) : DocumentPage :=
  { id := id, url := url, base64 := (jsSplitComma url).getD 1 "", mimeType := mimeType }

/-- Parsed PDF document as pdfjs presents it to processPdf: a page count, a
per-page flag telling whether canvas.getContext('2d') returned a context
(page numbers start at 1), and the data URL that canvas.toDataURL produces
for each rendered page. -/
structure PdfDoc where
  numPages : Nat
  ctx2d : Nat → Bool
  pageUrl : Nat → String

/-- processPdf from App.tsx: loop i = 1 .. numPages, render each page onto a
canvas and push a page only when a 2d context was available; the data URL is
the JPEG encoding of the canvas and the media type is fixed.  The gen
argument supplies the Math.random-derived id of each created page. -/
def processPdf (gen : Nat → String) (pdf : PdfDoc) : List DocumentPage :=
  (List.range pdf.numPages).filterMap fun k =>
    if pdf.ctx2d (k + 1) then
      some (mkPageFromDataUrl (gen (k + 1)) (pdf.pageUrl (k + 1)) "image/jpeg")
    else none

/-- JavaScript String.startsWith, embedded on the character lists. -/
def jsStartsWith (s pre : String) : Bool :=
  pre.data.isPrefixOf s.data

/-- Input file as processFiles sees it: its MIME type string, the parsed PDF
document pdfjs would produce from it, the data URL FileReader.readAsDataURL
would produce from it, and whether that read succeeds (the image branch
catches read errors and pushes nothing). -/
structure JsFile where
  fileType : String
  pdfDoc : PdfDoc
  dataUrl : String
  readOk : Bool

/-- Dispatch of processFiles for one file: a PDF is rasterized page by page,
an image file becomes a single page built from its data URL, and any other
file type is skipped. -/
def processOneFile (gen : Nat → String) (f : JsFile) : List DocumentPage :=
  if f.fileType = "application/pdf" then processPdf gen f.pdfDoc
  else if jsStartsWith f.fileType "image/" then
    if f.readOk then [mkPageFromDataUrl (gen 0) f.dataUrl f.fileType] else []
  else []

/-- processFiles from App.tsx (success path of the surrounding try): the
newly created pages of all input files, in input order. -/
def processFiles (gen : Nat → String) (files : List JsFile) : List DocumentPage :=
  files.flatMap (processOneFile gen)

/-! ## Theorems for claims C6 and C7 -/

/-- Splitting a comma-free character list yields that single chunk. -/
theorem splitCommaL_noComma (b : List Char) (hb : ',' ∉ b) :
    splitCommaL b = [b] := by
  induction b with
  | nil => rfl
  | cons c cs ih =>
      have hc : ¬ c = ',' := fun h => hb (h ▸ List.mem_cons_self c cs)
      have hcs : ',' ∉ cs := fun h => hb (List.mem_cons_of_mem c h)
      simp [splitCommaL, hc, ih hcs]

/-- Splitting at the first comma separates the comma-free head chunk. -/
theorem splitCommaL_append (a b : List Char) (ha : ',' ∉ a) :
    splitCommaL (a ++ ',' :: b) = a :: splitCommaL b := by
  induction a with
  | nil => simp [splitCommaL]
  | cons c cs ih =>
      have hc : ¬ c = ',' := fun h => ha (h ▸ List.mem_cons_self c cs)
      have hcs : ',' ∉ cs := fun h => ha (List.mem_cons_of_mem c h)
      rcases hsp : splitCommaL (cs ++ ',' :: b) with _ | ⟨t, ts⟩
      · rw [ih hcs] at hsp
        cases hsp
      · have := (ih hcs).symm.trans hsp
        cases this
        simp [splitCommaL, hc, hsp]

/-- Dropping through the first comma recovers the tail after a comma-free
head. -/
theorem afterCommaL_append (a b : List Char) (ha : ',' ∉ a) :
    afterCommaL (a ++ ',' :: b) = b := by
  induction a with
  | nil => simp [afterCommaL]
  | cons c cs ih =>
      have hc : ¬ c = ',' := fun h => ha (h ▸ List.mem_cons_self c cs)
      have hcs : ',' ∉ cs := fun h => ha (List.mem_cons_of_mem c h)
      simp [afterCommaL, hc, ih hcs]

/-- Character data of a string concatenation. -/
theorem strData_append (s t : String) : (s ++ t).data = s.data ++ t.data := rfl

/-- C6: a page built from a base64 data URL (as both the image branch of
processFiles and the PDF rasterization branch build their pages, see
mkPageFromDataUrl, processOneFile and processPdf) keeps the data URL for
display, and its transfer payload equals the portion of that URL after the
first comma: the split-based extraction of the code agrees with the
specified prefix stripping.  Browsers never put a comma in a MIME type or a
base64 payload, which the two hypotheses record. -/
theorem page_encodings (id mime payload : String)
    (hm : ',' ∉ mime.data) (hp : ',' ∉ payload.data) :
    (mkPageFromDataUrl id ("data:" ++ mime ++ ";base64," ++ payload) mime).url
      = "data:" ++ mime ++ ";base64," ++ payload ∧
    (mkPageFromDataUrl id ("data:" ++ mime ++ ";base64," ++ payload) mime).base64
      = payload ∧
    afterFirstComma ("data:" ++ mime ++ ";base64," ++ payload) = payload := by
  have hdata : ("data:" ++ mime ++ ";base64," ++ payload).data
      = ("data:".data ++ mime.data ++ ";base64".data) ++ ',' :: payload.data := by
    simp only [strData_append]
    have : (";base64," : String).data = ";base64".data ++ [','] := by decide
    simp [this, List.append_assoc]
  have hfree : ',' ∉ "data:".data ++ mime.data ++ ";base64".data := by
    intro h
    rcases List.mem_append.1 h with h1 | h2
    · rcases List.mem_append.1 h1 with h3 | h4
      · revert h3; decide
      · exact hm h4
    · revert h2; decide
  refine ⟨rfl, ?_, ?_⟩
  · show (jsSplitComma ("data:" ++ mime ++ ";base64," ++ payload)).getD 1 "" = payload
    rw [jsSplitComma, hdata, splitCommaL_append _ _ hfree,
      splitCommaL_noComma _ hp]
    cases payload
    rfl
  · rw [afterFirstComma, hdata, afterCommaL_append _ _ hfree]

/-- Witness for C6: a concrete PNG data URL. -/
theorem page_encodings_witness :
    (mkPageFromDataUrl "p" ("data:" ++ "image/png" ++ ";base64," ++ "QUJD") "image/png").url
      = "data:" ++ "image/png" ++ ";base64," ++ "QUJD" ∧
    (mkPageFromDataUrl "p" ("data:" ++ "image/png" ++ ";base64," ++ "QUJD") "image/png").base64
      = "QUJD" ∧
    afterFirstComma ("data:" ++ "image/png" ++ ";base64," ++ "QUJD") = "QUJD" :=
  page_encodings "p" "image/png" "QUJD" (by decide) (by decide)

/-- C7: when a 2d canvas context is available for every page, converting a
PDF yields exactly one page per PDF page, in document order (the page
rendered from PDF page k+1 sits at index k), each with media type
image/jpeg; and a file that is neither a PDF nor an image produces no page
at all. -/
theorem processPdf_pages (gen : Nat → String) (pdf : PdfDoc)
    (hctx : ∀ i, pdf.ctx2d i = true) :
    processPdf gen pdf
      = (List.range pdf.numPages).map
          (fun k => mkPageFromDataUrl (gen (k + 1)) (pdf.pageUrl (k + 1)) "image/jpeg") ∧
    (processPdf gen pdf).length = pdf.numPages ∧
    (∀ f : JsFile, f.fileType ≠ "application/pdf" →
      jsStartsWith f.fileType "image/" = false → processOneFile gen f = []) := by
  have hmap : processPdf gen pdf
      = (List.range pdf.numPages).map
          (fun k => mkPageFromDataUrl (gen (k + 1)) (pdf.pageUrl (k + 1)) "image/jpeg") := by
    rw [processPdf, List.filterMap_eq_map_iff_forall_eq_some.2]
    intro k _
    rw [hctx (k + 1)]
    simp
  refine ⟨hmap, ?_, ?_⟩
  · rw [hmap, List.length_map, List.length_range]
  · intro f hpdf him
    simp [processOneFile, hpdf, him]

/-- PDF input used to witness C7. -/
def pdfEx : PdfDoc :=
  { numPages := 2, ctx2d := fun _ => true, pageUrl := fun _ => "data:image/jpeg;base64,QQ==" }

/-- Non-PDF non-image input used to witness C7. -/
def fileEx : JsFile :=
  { fileType := "text/plain", pdfDoc := pdfEx, dataUrl := "", readOk := true }

/-- Witness for C7: a two-page PDF with contexts available everywhere, and a
plain text file that yields no page. -/
theorem processPdf_pages_witness :
    (processPdf (fun _ => "p") pdfEx).length = 2 ∧
    processOneFile (fun _ => "p") fileEx = [] :=
  ⟨(processPdf_pages (fun _ => "p") pdfEx (fun _ => rfl)).2.1,
   (processPdf_pages (fun _ => "p") pdfEx (fun _ => rfl)).2.2 fileEx
     (by decide) (by decide)⟩

/-! ## App component state machine (src/App.tsx)

The React useState fields of the App component that the claims mention are
gathered in one record; each event handler becomes a state transformer.
Asynchronous handlers are modelled atomically: an operation carries the
outcome of its awaited service call as a parameter, and states are observed
at operation boundaries (transient flag values inside a handler, such as
isProcessing switching to true before the await, are not separate states of
this model).  Operations fire only under the conditions in which App.tsx
renders the control that triggers them, recorded in appGuard. -/

structure AppComponentState where
  pages : List DocumentPage
  messages : List ChatMessage
  appState : AppState
  isProcessing : Bool
  activeReferencePageId : Option String
  generatedAsset : Option GeneratedAsset
deriving DecidableEq, Repr

/-- State effect of processFiles on the component (App.tsx line 117):
append the freshly converted pages. -/
def processFilesApp (s : AppComponentState) (newPages : List DocumentPage) :
    AppComponentState :=
  { s with pages := s.pages ++ newPages }

/-- handleSketchUpload from App.tsx: run processFiles, then select the first
newly created page as the active reference if any page was created. -/
def handleSketchUpload (s : AppComponentState) (newPages : List DocumentPage) :
    AppComponentState :=
  match newPages with
  | [] => processFilesApp s newPages
  | p :: _ => { processFilesApp s newPages with activeReferencePageId := some p.id }

/-- handleRemovePage from App.tsx: drop the page with the given id and reset
the active reference when it pointed at that page. -/
def handleRemovePage (s : AppComponentState) (id : String) : AppComponentState :=
  { s with
    pages := s.pages.filter (fun p => p.id != id)
    activeReferencePageId :=
      if s.activeReferencePageId = some id then none else s.activeReferencePageId }

/-- startAnalysis from App.tsx, atomically: nothing happens without pages;
otherwise the result parameter carries the outcome of initializeChat, some
(reply, timestamp) on success (the transcript is set to the single model
reply) and none on failure (state returns to IDLE, transcript untouched). -/
def startAnalysis (s : AppComponentState) (result : Option (String × Nat)) :
    AppComponentState :=
  if s.pages = [] then s
  else
    match result with
    | some (reply, t) =>
        { s with
          messages := [{ role := .model, text := reply, isError := none, timestamp := t }]
          appState := .READY, isProcessing := false }
    | none => { s with appState := .IDLE, isProcessing := false }

/-- Fixed text of the error reply appended by handleSendMessage. -/
def errorReplyText : String :=
  "I encountered an error trying to respond. Please try again."

/-- handleSendMessage from App.tsx, atomically: append the user message,
then append either the model reply (result = some reply) or the fixed error
message with the isError flag (result = none, the service call threw); the
finally block clears the processing flag either way. -/
def handleSendMessage (s : AppComponentState) (text : String) (t1 t2 : Nat)
    (result : Option String) : AppComponentState :=
  let s1 : AppComponentState := { s with
    messages := s.messages ++
      [({ role := .user, text := text, isError := none, timestamp := t1 } : ChatMessage)]
    isProcessing := true }
  match result with
  | some reply =>
      { s1 with
        messages := s1.messages ++
          [({ role := .model, text := reply, isError := none, timestamp := t2 } : ChatMessage)]
        isProcessing := false }
  | none =>
      { s1 with
        messages := s1.messages ++
          [({ role := .model, text := errorReplyText, isError := some true, timestamp := t2 } : ChatMessage)]
        isProcessing := false }

/-- JavaScript falsiness of the nullable activeReferencePageId string (null
and the empty string are falsy). -/
def jsFalsyId : Option String → Bool
  | none => true
  | some s => s == ""

/-- toggleImageMode from App.tsx: leave creative mode towards READY or IDLE
depending on whether the transcript is nonempty, or enter it, defaulting the
active reference to the first page when none is set. -/
def toggleImageMode (s : AppComponentState) : AppComponentState :=
  if s.appState = AppState.IMAGE_GEN then
    { s with appState := if s.messages = [] then .IDLE else .READY }
  else
    match s.pages with
    | [] => { s with appState := .IMAGE_GEN }
    | p :: _ =>
        if jsFalsyId s.activeReferencePageId then
          { s with appState := .IMAGE_GEN, activeReferencePageId := some p.id }
        else { s with appState := .IMAGE_GEN }

/-- onSelectReference, the inline sidebar callback of App.tsx: select a
listed page as active reference. -/
def onSelectReference (s : AppComponentState) (p : DocumentPage) : AppComponentState :=
  { s with activeReferencePageId := some p.id }

/-- Operations of the App component, one per event handler; parameters carry
user input and the outcomes of awaited service calls.  Handlers that only
touch component fields outside this model (diagram, workflow and OCR data)
appear as operations without an effect on the modelled fields. -/
inductive AppOp where
  | filesSelected (newPages : List DocumentPage)
  | sketchUpload (newPages : List DocumentPage)
  | removePage (id : String)
  | analyze (result : Option (String × Nat))
  | sendMessage (text : String) (t1 t2 : Nat) (result : Option String)
  | toggleImage
  | selectReference (p : DocumentPage)
  | assetUpdate (a : GeneratedAsset)
  | resetImage
  | imageGeneration (a : GeneratedAsset)
  | imageRefinement (a : GeneratedAsset)
  | generateDiagram
  | generateWorkflow
  | extractText
  | downloadChat

/-- Conditions under which App.tsx renders the control firing an operation:
the analyze button only in the IDLE staging view, the chat input only in the
READY view, reference selection only in creative mode and only on a listed
page.  All other controls are available unconditionally for the purposes of
the modelled fields. -/
def appGuard (s : AppComponentState) : AppOp → Prop
  | .analyze _ => s.appState = .IDLE
  | .sendMessage _ _ _ _ => s.appState = .READY
  | .selectReference p => s.appState = .IMAGE_GEN ∧ p ∈ s.pages
  | _ => True

/-- Transition function of the App component. -/
def appStep (s : AppComponentState) : AppOp → AppComponentState
  | .filesSelected np => processFilesApp s np
  | .sketchUpload np => handleSketchUpload s np
  | .removePage id => handleRemovePage s id
  | .analyze r => startAnalysis s r
  | .sendMessage text t1 t2 r => handleSendMessage s text t1 t2 r
  | .toggleImage => toggleImageMode s
  | .selectReference p => onSelectReference s p
  | .assetUpdate a => { s with generatedAsset := some a }
  | .resetImage => { s with generatedAsset := none }
  | .imageGeneration a => { s with generatedAsset := some a }
  | .imageRefinement a => { s with generatedAsset := some a }
  | .generateDiagram => s
  | .generateWorkflow => s
  | .extractText => s
  | .downloadChat => s

/-- Initial component state (the useState initializers of App.tsx). -/
def initApp : AppComponentState :=
  { pages := [], messages := [], appState := .IDLE, isProcessing := false,
    activeReferencePageId := none, generatedAsset := none }

/-- Reachable component states: the initial state and everything produced by
guarded operations. -/
inductive Reachable : AppComponentState → Prop where
  | init : Reachable initApp
  | step {s : AppComponentState} (op : AppOp) :
      Reachable s → appGuard s op → Reachable (appStep s op)

/-- Auxiliary invariant: while the component shows the IDLE view the
transcript is empty (the only transition into IDLE with a nonempty
transcript would be leaving creative mode, and that one goes to READY). -/
theorem messages_idle_empty {s : AppComponentState} (h : Reachable s) :
    s.appState = .IDLE → s.messages = [] := by
  induction h with
  | init => intro _; rfl
  | step op _ hg ih =>
      rename_i s _
      cases op with
      | filesSelected np => simpa [appStep, processFilesApp] using ih
      | sketchUpload np =>
          cases np <;> simpa [appStep, handleSketchUpload, processFilesApp] using ih
      | removePage id => simpa [appStep, handleRemovePage] using ih
      | analyze r =>
          by_cases hp : s.pages = []
          · simpa [appStep, startAnalysis, hp] using ih
          · rcases r with _ | ⟨reply, t⟩
            · intro _
              simp only [appStep, startAnalysis, if_neg hp]
              exact ih hg
            · intro hcontra
              simp [appStep, startAnalysis, if_neg hp] at hcontra
      | sendMessage text t1 t2 r =>
          intro hcontra
          have hgr : s.appState = AppState.READY := hg
          have hstate : (appStep s (AppOp.sendMessage text t1 t2 r)).appState = s.appState := by
            rcases r with _ | reply <;> rfl
          rw [hstate, hgr] at hcontra
          exact absurd hcontra (by decide)
      | toggleImage =>
          intro hcontra
          by_cases him : s.appState = AppState.IMAGE_GEN
          · by_cases hm : s.messages = []
            · simp [appStep, toggleImageMode, him, hm]
            · simp [appStep, toggleImageMode, him, hm] at hcontra
          · rcases hps : s.pages with _ | ⟨p, rest⟩
            · simp [appStep, toggleImageMode, him, hps] at hcontra
            · by_cases hf : jsFalsyId s.activeReferencePageId = true <;>
                simp [appStep, toggleImageMode, him, hps, hf] at hcontra
      | selectReference p => simpa [appStep, onSelectReference] using ih
      | assetUpdate a => simpa [appStep] using ih
      | resetImage => simpa [appStep] using ih
      | imageGeneration a => simpa [appStep] using ih
      | imageRefinement a => simpa [appStep] using ih
      | generateDiagram => simpa [appStep] using ih
      | generateWorkflow => simpa [appStep] using ih
      | extractText => simpa [appStep] using ih
      | downloadChat => simpa [appStep] using ih

/-- C2: the chat transcript is append-only.  In every reachable component
state, every guarded operation leaves the messages list unchanged or extends
it at the end; in particular no message is removed or modified.  The
replacement performed by a successful startAnalysis only ever happens in the
IDLE view, where the transcript is empty. -/
theorem transcript_append_only (s : AppComponentState) (op : AppOp)
    (hr : Reachable s) (hg : appGuard s op) :
    ∃ t, (appStep s op).messages = s.messages ++ t := by
  cases op with
  | analyze r =>
      by_cases hp : s.pages = []
      · exact ⟨[], by simp [appStep, startAnalysis, hp]⟩
      · rcases r with _ | ⟨reply, t⟩
        · exact ⟨[], by simp [appStep, startAnalysis, hp]⟩
        · refine ⟨[{ role := .model, text := reply, isError := none, timestamp := t }], ?_⟩
          have hempty : s.messages = [] := messages_idle_empty hr hg
          simp [appStep, startAnalysis, hp, hempty]
  | sendMessage text t1 t2 r =>
      rcases r with _ | reply
      · exact ⟨[{ role := .user, text := text, isError := none, timestamp := t1 },
          { role := .model, text := errorReplyText, isError := some true, timestamp := t2 }],
          by simp [appStep, handleSendMessage]⟩
      · exact ⟨[{ role := .user, text := text, isError := none, timestamp := t1 },
          { role := .model, text := reply, isError := none, timestamp := t2 }],
          by simp [appStep, handleSendMessage]⟩
  | filesSelected np => exact ⟨[], by simp [appStep, processFilesApp]⟩
  | sketchUpload np =>
      exact ⟨[], by cases np <;> simp [appStep, handleSketchUpload, processFilesApp]⟩
  | removePage id => exact ⟨[], by simp [appStep, handleRemovePage]⟩
  | toggleImage =>
      refine ⟨[], ?_⟩
      by_cases him : s.appState = AppState.IMAGE_GEN
      · simp [appStep, toggleImageMode, him]
      · rcases hps : s.pages with _ | ⟨p, rest⟩
        · simp [appStep, toggleImageMode, him, hps]
        · by_cases hf : jsFalsyId s.activeReferencePageId = true <;>
            simp [appStep, toggleImageMode, him, hps, hf]
  | selectReference p => exact ⟨[], by simp [appStep, onSelectReference]⟩
  | assetUpdate a => exact ⟨[], by simp [appStep]⟩
  | resetImage => exact ⟨[], by simp [appStep]⟩
  | imageGeneration a => exact ⟨[], by simp [appStep]⟩
  | imageRefinement a => exact ⟨[], by simp [appStep]⟩
  | generateDiagram => exact ⟨[], by simp [appStep]⟩
  | generateWorkflow => exact ⟨[], by simp [appStep]⟩
  | extractText => exact ⟨[], by simp [appStep]⟩
  | downloadChat => exact ⟨[], by simp [appStep]⟩

/-- Witness for C2: entering creative mode from the initial state leaves the
transcript extended (here by nothing). -/
theorem transcript_append_only_witness :
    ∃ t, (appStep initApp AppOp.toggleImage).messages = initApp.messages ++ t :=
  transcript_append_only initApp AppOp.toggleImage Reachable.init trivial

/-- C5: pages are immutable after creation.  Every page present before an
operation is afterwards present with all its fields unchanged, unless the
operation is exactly the user deletion of its id; a deletion leaves no page
with the deleted id behind; and the upload operations append the new pages
at the end without touching existing ones. -/
theorem pages_immutable (s : AppComponentState) (op : AppOp) :
    (∀ p ∈ s.pages, p ∈ (appStep s op).pages ∨
      ∃ id, op = AppOp.removePage id ∧ p.id = id) ∧
    (∀ id, op = AppOp.removePage id → ∀ p ∈ (appStep s op).pages, p.id ≠ id) ∧
    (∀ np, op = AppOp.filesSelected np → (appStep s op).pages = s.pages ++ np) ∧
    (∀ np, op = AppOp.sketchUpload np → (appStep s op).pages = s.pages ++ np) := by
  cases op with
  | removePage id =>
      refine ⟨?_, ?_, by simp, by simp⟩
      · intro p hp
        by_cases hid : p.id = id
        · exact Or.inr ⟨id, rfl, hid⟩
        · refine Or.inl ?_
          simp only [appStep, handleRemovePage]
          exact List.mem_filter.2 ⟨hp, by simpa [bne_iff_ne] using hid⟩
      · intro id' hid' p hp
        cases hid'
        simp only [appStep, handleRemovePage] at hp
        have := (List.mem_filter.1 hp).2
        simpa [bne_iff_ne] using this
  | filesSelected np =>
      refine ⟨?_, by simp, ?_, by simp⟩
      · intro p hp
        exact Or.inl (by simp [appStep, processFilesApp, hp])
      · intro np' h
        cases h
        rfl
  | sketchUpload np =>
      refine ⟨?_, by simp, by simp, ?_⟩
      · intro p hp
        refine Or.inl ?_
        cases np <;> simp [appStep, handleSketchUpload, processFilesApp, hp]
      · intro np' h
        cases h
        cases np <;> simp [appStep, handleSketchUpload, processFilesApp]
  | analyze r =>
      refine ⟨?_, by simp, by simp, by simp⟩
      intro p hp
      refine Or.inl ?_
      have hpages : (appStep s (AppOp.analyze r)).pages = s.pages := by
        by_cases hps : s.pages = [] <;> rcases r with _ | ⟨reply, t⟩ <;>
          simp [appStep, startAnalysis, hps]
      rw [hpages]
      exact hp
  | sendMessage text t1 t2 r =>
      refine ⟨?_, by simp, by simp, by simp⟩
      intro p hp
      rcases r with _ | reply <;> exact Or.inl (by simp [appStep, handleSendMessage, hp])
  | toggleImage =>
      refine ⟨?_, by simp, by simp, by simp⟩
      intro p hp
      refine Or.inl ?_
      by_cases him : s.appState = AppState.IMAGE_GEN
      · simpa [appStep, toggleImageMode, him] using hp
      · rcases hps : s.pages with _ | ⟨q, rest⟩
        · simp [hps] at hp
        · by_cases hf : jsFalsyId s.activeReferencePageId = true <;>
            simp [appStep, toggleImageMode, him, hps, hf] <;>
            simpa [hps] using hp
  | selectReference q =>
      exact ⟨fun p hp => Or.inl (by simpa [appStep, onSelectReference] using hp),
        by simp, by simp, by simp⟩
  | assetUpdate a =>
      exact ⟨fun p hp => Or.inl (by simpa [appStep] using hp), by simp, by simp, by simp⟩
  | resetImage =>
      exact ⟨fun p hp => Or.inl (by simpa [appStep] using hp), by simp, by simp, by simp⟩
  | imageGeneration a =>
      exact ⟨fun p hp => Or.inl (by simpa [appStep] using hp), by simp, by simp, by simp⟩
  | imageRefinement a =>
      exact ⟨fun p hp => Or.inl (by simpa [appStep] using hp), by simp, by simp, by simp⟩
  | generateDiagram =>
      exact ⟨fun p hp => Or.inl (by simpa [appStep] using hp), by simp, by simp, by simp⟩
  | generateWorkflow =>
      exact ⟨fun p hp => Or.inl (by simpa [appStep] using hp), by simp, by simp, by simp⟩
  | extractText =>
      exact ⟨fun p hp => Or.inl (by simpa [appStep] using hp), by simp, by simp, by simp⟩
  | downloadChat =>
      exact ⟨fun p hp => Or.inl (by simpa [appStep] using hp), by simp, by simp, by simp⟩

/-- Page used by the state-machine witnesses. -/
def pageEx : DocumentPage :=
  { id := "pg1", url := "data:image/png;base64,QQ==", base64 := "QQ==", mimeType := "image/png" }

/-- Witness for C5: uploading one page onto the initial state appends it. -/
theorem pages_immutable_witness :
    (appStep initApp (AppOp.filesSelected [pageEx])).pages = initApp.pages ++ [pageEx] :=
  (pages_immutable initApp (AppOp.filesSelected [pageEx])).2.2.1 [pageEx] rfl

/-- C8: a chat turn always extends the transcript by exactly two messages:
the user message, then on failure a model message carrying the error flag
and the fixed error text, on success the model reply without the error flag;
the processing flag is false after either outcome. -/
theorem sendMessage_two_appends (s : AppComponentState) (text : String)
    (t1 t2 : Nat) (reply : String) :
    (handleSendMessage s text t1 t2 none).messages
      = s.messages ++ [{ role := .user, text := text, isError := none, timestamp := t1 },
          { role := .model, text := errorReplyText, isError := some true, timestamp := t2 }] ∧
    (handleSendMessage s text t1 t2 none).isProcessing = false ∧
    (handleSendMessage s text t1 t2 (some reply)).messages
      = s.messages ++ [{ role := .user, text := text, isError := none, timestamp := t1 },
          { role := .model, text := reply, isError := none, timestamp := t2 }] ∧
    (handleSendMessage s text t1 t2 (some reply)).isProcessing = false := by
  refine ⟨?_, rfl, ?_, rfl⟩ <;> simp [handleSendMessage]

/-- Validity of the active reference: it is null or the id of a listed page. -/
def RefValid (s : AppComponentState) : Prop :=
  ∀ i, s.activeReferencePageId = some i → i ∈ s.pages.map DocumentPage.id

/-- Preservation of reference validity by every guarded operation. -/
theorem refValid_step (s : AppComponentState) (op : AppOp)
    (hg : appGuard s op) (h : RefValid s) : RefValid (appStep s op) := by
  cases op with
  | filesSelected np =>
      intro i hi
      have := h i hi
      simp only [appStep, processFilesApp] at hi ⊢
      simp [List.map_append]
      exact Or.inl (by simpa using this)
  | sketchUpload np =>
      rcases np with _ | ⟨p, rest⟩
      · intro i hi
        have := h i hi
        simp only [appStep, handleSketchUpload, processFilesApp] at hi ⊢
        simpa using this
      · intro i hi
        simp only [appStep, handleSketchUpload, processFilesApp] at hi ⊢
        cases hi
        simp
  | removePage id =>
      intro i hi
      simp only [appStep, handleRemovePage] at hi ⊢
      by_cases hcase : s.activeReferencePageId = some id
      · rw [if_pos hcase] at hi
        cases hi
      · rw [if_neg hcase] at hi
        have hne : i ≠ id := fun hiid => hcase (hiid ▸ hi)
        obtain ⟨p, hp, hpid⟩ := List.mem_map.1 (h i hi)
        exact List.mem_map.2 ⟨p, List.mem_filter.2 ⟨hp, by simpa [bne_iff_ne, hpid] using hne⟩, hpid⟩
  | analyze r =>
      intro i hi
      have hpages : (appStep s (AppOp.analyze r)).pages = s.pages := by
        by_cases hps : s.pages = [] <;> rcases r with _ | ⟨reply, t⟩ <;>
          simp [appStep, startAnalysis, hps]
      have href : (appStep s (AppOp.analyze r)).activeReferencePageId
          = s.activeReferencePageId := by
        by_cases hps : s.pages = [] <;> rcases r with _ | ⟨reply, t⟩ <;>
          simp [appStep, startAnalysis, hps]
      rw [href] at hi
      rw [hpages]
      exact h i hi
  | sendMessage text t1 t2 r =>
      intro i hi
      rcases r with _ | reply <;> exact h i hi
  | toggleImage =>
      intro i hi
      by_cases him : s.appState = AppState.IMAGE_GEN
      · have hstep : appStep s AppOp.toggleImage
            = { s with appState := if s.messages = [] then .IDLE else .READY } := by
          simp [appStep, toggleImageMode, him]
        rw [hstep] at hi ⊢
        exact h i hi
      · rcases hps : s.pages with _ | ⟨p, rest⟩
        · have hstep : appStep s AppOp.toggleImage = { s with appState := .IMAGE_GEN } := by
            simp [appStep, toggleImageMode, him, hps]
          rw [hstep] at hi ⊢
          exact h i hi
        · by_cases hf : jsFalsyId s.activeReferencePageId = true
          · have hstep : appStep s AppOp.toggleImage
                = { s with appState := .IMAGE_GEN, activeReferencePageId := some p.id } := by
              simp [appStep, toggleImageMode, him, hps, hf]
            rw [hstep] at hi ⊢
            have hii : p.id = i := by
              simpa using hi
            rw [← hii]
            show p.id ∈ s.pages.map DocumentPage.id
            rw [hps]
            exact List.mem_map.2 ⟨p, List.mem_cons_self p rest, rfl⟩
          · have hstep : appStep s AppOp.toggleImage = { s with appState := .IMAGE_GEN } := by
              simp [appStep, toggleImageMode, him, hps, hf]
            rw [hstep] at hi ⊢
            exact h i hi
  | selectReference p =>
      intro i hi
      simp only [appStep, onSelectReference] at hi
      cases hi
      exact List.mem_map.2 ⟨p, hg.2, rfl⟩
  | assetUpdate a => intro i hi; exact h i hi
  | resetImage => intro i hi; exact h i hi
  | imageGeneration a => intro i hi; exact h i hi
  | imageRefinement a => intro i hi; exact h i hi
  | generateDiagram => intro i hi; exact h i hi
  | generateWorkflow => intro i hi; exact h i hi
  | extractText => intro i hi; exact h i hi
  | downloadChat => intro i hi; exact h i hi

/-- C10: in every reachable component state the active reference selection
is valid: activeReferencePageId is null or the id of a page currently in the
page list.  Removal of the referenced page resets it, and every operation
that sets it assigns the id of an existing page. -/
theorem active_reference_valid (s : AppComponentState) (h : Reachable s) :
    RefValid s := by
  induction h with
  | init => intro i hi; cases hi
  | step op _ hg ih => exact refValid_step _ op hg ih

/-- State used to witness C10: upload one page, then enter creative mode,
which selects that page as the active reference. -/
def s10Ex : AppComponentState :=
  appStep (appStep initApp (AppOp.filesSelected [pageEx])) AppOp.toggleImage

/-- Witness for C10: the reference selected on entering creative mode is a
listed page id. -/
theorem active_reference_valid_witness :
    "pg1" ∈ s10Ex.pages.map DocumentPage.id :=
  active_reference_valid s10Ex
    (Reachable.step AppOp.toggleImage
      (Reachable.step (AppOp.filesSelected [pageEx]) Reachable.init trivial) trivial)
    "pg1" (by decide)

/-! ## Canvas editor (src/components/ImageGenerator.tsx)

React function-component semantics: an event handler closes over the state
values of the render it was created in (the snapshot), while setState calls
queue updates that form the next committed state; a plain closure read
inside the same handler invocation (such as the nodes, connections and
generatedAsset reads of saveState) still sees the snapshot, not the queued
updates.  Each handler below therefore maps the snapshot state to the next
committed state together with the list of onAssetUpdate emissions it
performs, and the emissions are built from the snapshot values the closures
actually read. -/

structure EditorState where
  nodes : List DiagramNode
  connections : List DiagramConnection
  selectedNodeId : Option String
  isDragging : Bool
  isDrawingLine : Bool
  lineStartNodeId : Option String
  mousePos : Int × Int
  dragOffset : Int × Int
  generatedAsset : Option GeneratedAsset
deriving DecidableEq, Repr

/-- saveState from ImageGenerator.tsx: when an asset exists, emit it to the
parent with the nodes and connections the closure sees, which are the
snapshot values of the render the handler belongs to. -/
def saveState (snap : EditorState) : List GeneratedAsset :=
  match snap.generatedAsset with
  | some ga => [{ ga with nodes := some snap.nodes, connections := some snap.connections }]
  | none => []

/-- handleContainerMouseUp from ImageGenerator.tsx: finish a card drag
(clear the flag and save), then finish a line draw (append the new
connection to the pending connections, reset the drawing state and save).
Both saveState calls read the snapshot; in particular the second one runs in
the same invocation as the setConnections append and therefore emits the
connection list without the connection just created. -/
def handleContainerMouseUp (now : Nat) (snap : EditorState) :
    EditorState × List GeneratedAsset :=
  let s1 := if snap.isDragging then { snap with isDragging := false } else snap
  let out1 := if snap.isDragging then saveState snap else []
  match snap.isDrawingLine, snap.lineStartNodeId with
  | true, some nid =>
      if nid = "" then (s1, out1)
      else
        let c : DiagramConnection :=
          { id := "conn-" ++ toString now, fromNodeId := nid,
            toX := snap.mousePos.1, toY := snap.mousePos.2 }
        ({ s1 with
            connections := s1.connections ++ [c]
            isDrawingLine := false
            lineStartNodeId := none },
          out1 ++ saveState snap)
  | _, _ => (s1, out1)

/-- handleCardMouseDown from ImageGenerator.tsx: ignored while drawing a
line, otherwise select the card and start dragging with the given offset
(the offset argument models the DOM rectangle arithmetic). -/
def handleCardMouseDown (node : DiagramNode) (off : Int × Int)
    (snap : EditorState) : EditorState :=
  if snap.isDrawingLine then snap
  else { snap with selectedNodeId := some node.id, isDragging := true, dragOffset := off }

/-- handleContainerMouseMove from ImageGenerator.tsx: track the mouse and,
while dragging with a (truthy) selected card, move that card to the mouse
position minus the drag offset. -/
def handleContainerMouseMove (pos : Int × Int) (snap : EditorState) : EditorState :=
  let s1 : EditorState := { snap with mousePos := pos }
  match snap.selectedNodeId with
  | none => s1
  | some sel =>
      if snap.isDragging ∧ sel ≠ "" then
        { s1 with nodes := snap.nodes.map fun n =>
            if n.id = sel then
              { n with x := pos.1 - snap.dragOffset.1, y := pos.2 - snap.dragOffset.2 }
            else n }
      else s1

/-- updateSelectedNode from ImageGenerator.tsx: spread partial title and
content updates over the selected card; no call with a falsy selection. -/
def updateSelectedNode (newTitle newContent : Option String)
    (snap : EditorState) : EditorState :=
  match snap.selectedNodeId with
  | none => snap
  | some sel =>
      if sel = "" then snap
      else { snap with nodes := snap.nodes.map fun n =>
          if n.id = sel then
            { n with title := newTitle.getD n.title, content := newContent.getD n.content }
          else n }

/-- startConnection from ImageGenerator.tsx: remember the start card, enter
line-drawing mode and initialize the mouse position. -/
def startConnection (nodeId : String) (pos : Int × Int)
    (snap : EditorState) : EditorState :=
  { snap with lineStartNodeId := some nodeId, isDrawingLine := true, mousePos := pos }

/-- removeConnection from ImageGenerator.tsx: filter the connection out and
save (again from the snapshot the closure sees). -/
def removeConnection (cid : String) (snap : EditorState) :
    EditorState × List GeneratedAsset :=
  ({ snap with connections := snap.connections.filter (fun c => c.id != cid) },
    saveState snap)

/-- Done button of the card editor panel: clear the selection and save. -/
def deselectNode (snap : EditorState) : EditorState × List GeneratedAsset :=
  ({ snap with selectedNodeId := none }, saveState snap)

/-- Prop-to-state sync effect of ImageGenerator.tsx: when the generatedAsset
prop changes to a present asset, overwrite the local nodes and connections
with the asset's ones where present. -/
def syncFromAsset (a : GeneratedAsset) (snap : EditorState) : EditorState :=
  { snap with
    generatedAsset := some a
    nodes := (match a.nodes with | some ns => ns | none => snap.nodes)
    connections := (match a.connections with | some cs => cs | none => snap.connections) }

/-- Operations of the canvas editor, one per pointer or panel handler. -/
inductive EOp where
  | cardMouseDown (node : DiagramNode) (off : Int × Int)
  | containerMouseMove (pos : Int × Int)
  | containerMouseUp (now : Nat)
  | editNode (newTitle newContent : Option String)
  | startConn (nodeId : String) (pos : Int × Int)
  | removeConn (cid : String)
  | deselect
  | syncAsset (a : GeneratedAsset)
  | syncReset

/-- Transition function of the editor: the next committed state and the
onAssetUpdate emissions of the operation. -/
def editorStep (s : EditorState) : EOp → EditorState × List GeneratedAsset
  | .cardMouseDown node off => (handleCardMouseDown node off s, [])
  | .containerMouseMove pos => (handleContainerMouseMove pos s, [])
  | .containerMouseUp now => handleContainerMouseUp now s
  | .editNode t c => (updateSelectedNode t c s, [])
  | .startConn nid pos => (startConnection nid pos s, [])
  | .removeConn cid => removeConnection cid s
  | .deselect => deselectNode s
  | .syncAsset a => (syncFromAsset a s, [])
  | .syncReset => ({ s with generatedAsset := none }, [])

/-- C4: completing a link draw (mouse up while drawing with a truthy start
node) appends exactly one connection, from that node to the tracked mouse
position, and resets the drawing state; and no editor operation other than
this one (and the prop sync, which only copies connections already stored in
the asset) ever introduces a connection into the list. -/
theorem connections_only_from_link (s : EditorState) (op : EOp) :
    (∀ now nid, op = EOp.containerMouseUp now → s.isDrawingLine = true →
      s.lineStartNodeId = some nid → nid ≠ "" →
      (editorStep s op).1.connections = s.connections ++
        [{ id := "conn-" ++ toString now, fromNodeId := nid,
           toX := s.mousePos.1, toY := s.mousePos.2 }] ∧
      (editorStep s op).1.isDrawingLine = false ∧
      (editorStep s op).1.lineStartNodeId = none) ∧
    (∀ c ∈ (editorStep s op).1.connections,
      c ∈ s.connections ∨
      (∃ a cs, op = EOp.syncAsset a ∧ a.connections = some cs ∧ c ∈ cs) ∨
      (∃ now nid, op = EOp.containerMouseUp now ∧ s.isDrawingLine = true ∧
        s.lineStartNodeId = some nid ∧
        c = { id := "conn-" ++ toString now, fromNodeId := nid,
              toX := s.mousePos.1, toY := s.mousePos.2 })) := by
  cases op with
  | containerMouseUp now =>
      constructor
      · intro now' nid heq hdraw hstart hne
        cases heq
        refine ⟨?_, ?_, ?_⟩ <;>
          by_cases hdr : s.isDragging <;>
          simp [editorStep, handleContainerMouseUp, hdraw, hstart, hne, hdr]
      · intro c hc
        rcases hdraw : s.isDrawingLine with _ | _
        · left
          rcases hstart : s.lineStartNodeId with _ | nid <;>
            by_cases hdr : s.isDragging <;>
            simpa [editorStep, handleContainerMouseUp, hdraw, hstart, hdr] using hc
        · rcases hstart : s.lineStartNodeId with _ | nid
          · left
            by_cases hdr : s.isDragging <;>
              simpa [editorStep, handleContainerMouseUp, hdraw, hstart, hdr] using hc
          · by_cases hne : nid = ""
            · left
              by_cases hdr : s.isDragging <;>
                simpa [editorStep, handleContainerMouseUp, hdraw, hstart, hne, hdr] using hc
            · have hc' : c ∈ s.connections ∨
                  c = { id := "conn-" ++ toString now, fromNodeId := nid,
                        toX := s.mousePos.1, toY := s.mousePos.2 } := by
                by_cases hdr : s.isDragging <;>
                  simpa [editorStep, handleContainerMouseUp, hdraw, hstart, hne, hdr]
                    using hc
              rcases hc' with h | h
              · exact Or.inl h
              · refine Or.inr (Or.inr ⟨now, nid, rfl, ?_, ?_, h⟩) <;> simp [hdraw, hstart]
  | cardMouseDown node off =>
      refine ⟨by simp, ?_⟩
      intro c hc
      left
      by_cases hdl : s.isDrawingLine <;>
        simpa [editorStep, handleCardMouseDown, hdl] using hc
  | containerMouseMove pos =>
      refine ⟨by simp, ?_⟩
      intro c hc
      left
      rcases hsel : s.selectedNodeId with _ | sel
      · simpa [editorStep, handleContainerMouseMove, hsel] using hc
      · by_cases hcond : s.isDragging = true ∧ sel ≠ "" <;>
          simpa [editorStep, handleContainerMouseMove, hsel, hcond] using hc
  | editNode t c0 =>
      refine ⟨by simp, ?_⟩
      intro c hc
      left
      rcases hsel : s.selectedNodeId with _ | sel
      · simpa [editorStep, updateSelectedNode, hsel] using hc
      · by_cases hne : sel = "" <;>
          simpa [editorStep, updateSelectedNode, hsel, hne] using hc
  | startConn nid pos =>
      refine ⟨by simp, ?_⟩
      intro c hc
      exact Or.inl (by simpa [editorStep, startConnection] using hc)
  | removeConn cid =>
      refine ⟨by simp, ?_⟩
      intro c hc
      simp only [editorStep, removeConnection] at hc
      exact Or.inl (List.mem_of_mem_filter hc)
  | deselect =>
      refine ⟨by simp, ?_⟩
      intro c hc
      exact Or.inl (by simpa [editorStep, deselectNode] using hc)
  | syncAsset a =>
      refine ⟨by simp, ?_⟩
      intro c hc
      simp only [editorStep, syncFromAsset] at hc
      rcases hca : a.connections with _ | cs
      · rw [hca] at hc
        exact Or.inl hc
      · rw [hca] at hc
        exact Or.inr (Or.inl ⟨a, cs, rfl, hca, hc⟩)
  | syncReset =>
      refine ⟨by simp, ?_⟩
      intro c hc
      exact Or.inl (by simpa [editorStep] using hc)

/-- Editor state used to witness C4: drawing a line from node n1 with the
mouse at 120/80. -/
def e4State : EditorState :=
  { nodes := [{ id := "n1", title := "T", content := "C", x := 10, y := 20 }],
    connections := [], selectedNodeId := none, isDragging := false,
    isDrawingLine := true, lineStartNodeId := some "n1",
    mousePos := (120, 80), dragOffset := (0, 0), generatedAsset := none }

/-- Witness for C4: completing the concrete link draw appends exactly the
one expected connection and resets the drawing state. -/
theorem connections_only_from_link_witness :
    (editorStep e4State (EOp.containerMouseUp 5)).1.connections = e4State.connections ++
      [{ id := "conn-" ++ toString 5, fromNodeId := "n1",
         toX := e4State.mousePos.1, toY := e4State.mousePos.2 }] ∧
    (editorStep e4State (EOp.containerMouseUp 5)).1.isDrawingLine = false ∧
    (editorStep e4State (EOp.containerMouseUp 5)).1.lineStartNodeId = none :=
  (connections_only_from_link e4State (EOp.containerMouseUp 5)).1 5 "n1"
    rfl rfl rfl (by decide)

/-- Node used by the C3 counter-run. -/
def n3Ex : DiagramNode := { id := "n1", title := "T", content := "C", x := 10, y := 20 }

/-- Asset used by the C3 counter-run. -/
def ga3Ex : GeneratedAsset :=
  { svg := none, background := none, nodes := some [n3Ex], connections := some [] }

/-- Editor state used by the C3 counter-run: an asset is present, a line is
being drawn from n1, no connection exists yet. -/
def e3State : EditorState :=
  { nodes := [n3Ex], connections := [], selectedNodeId := none, isDragging := false,
    isDrawingLine := true, lineStartNodeId := some "n1",
    mousePos := (120, 80), dragOffset := (0, 0), generatedAsset := some ga3Ex }

/-- C3 (code bug): on release of a link-draw gesture the editor appends the
new connection to its committed state but the onAssetUpdate emission built
by saveState reads the render snapshot, so the serialized asset carries the
connection list from before the gesture: the parent's GeneratedAsset does
not equal the editor's post-gesture connections, contradicting the claimed
serialization of the gesture just completed. -/
theorem linkDraw_serializes_stale_connections :
    (editorStep e3State (EOp.containerMouseUp 5)).1.connections
      = [{ id := "conn-5", fromNodeId := "n1", toX := 120, toY := 80 }] ∧
    (editorStep e3State (EOp.containerMouseUp 5)).2.map GeneratedAsset.connections
      = [some []] ∧
    [some ((editorStep e3State (EOp.containerMouseUp 5)).1.connections)]
      ≠ (editorStep e3State (EOp.containerMouseUp 5)).2.map GeneratedAsset.connections := by
  refine ⟨?_, rfl, by decide⟩
  show e3State.connections ++
      [{ id := "conn-" ++ toString 5, fromNodeId := "n1", toX := 120, toY := 80 }]
    = [{ id := "conn-5", fromNodeId := "n1", toX := 120, toY := 80 }]
  rfl

end PdfRead
